import Mathlib

/-!
Verification development for the Shopee order-brush detector
(`python_script/orderbrush.py`).

The pipeline is embedded shallowly:

* a transaction row of the input ndarray (columns
  `orderId, shopId, userId, event_time`) becomes `Txn`;
* a per-shop row (columns `orderId, userId, event_time`) becomes `STxn`;
* a concentration row (columns `orderId, userId, concentration, event_time`)
  becomes `ConRec`;
* numpy arrays become lists, boolean-mask selection becomes `List.filter`,
  `np.unique` becomes sort-of-dedup, the Python `set` accumulator becomes a
  duplicate-free list built by `addPair`;
* machine integers are modelled by `Int` (ids, epoch seconds) and `Nat`
  (counts); `np.floor` of the quotient of two positive counts is `Nat`
  division.

The constructor `Orderbrush.__init__` sorts the stored copy by `event_time`;
it is modelled with a stable insertion sort by `event_time` (the spec's
reading of `np.argsort`).
-/

namespace OrderbrushModel

/-- One input transaction: the four columns of the input ndarray. -/
structure Txn where
  orderId : Int
  shopId : Int
  userId : Int
  time : Int
deriving DecidableEq, Repr

/-- One per-shop transaction row, as returned by `__get_shop_transaction__`
(columns `orderId, userId, event_time`). -/
structure STxn where
  orderId : Int
  userId : Int
  time : Int
deriving DecidableEq, Repr

/-- One row of the array returned by `__concentration__`
(columns `orderId, userId, concentration, event_time`). -/
structure ConRec where
  orderId : Int
  userId : Int
  con : Nat
  time : Int
deriving DecidableEq, Repr

/-- The constant `Orderbrush.ONE_HOUR = 3600`. -/
def ONE_HOUR : Int := 3600

/-- `__single_concentration__(userId)`: `0` on an empty array, otherwise
the floor of `len(userId) / len(np.unique(userId))`. -/
def single_concentration (userId : List Int) : Nat :=
  if userId.length = 0 then 0
  else userId.length / userId.dedup.length

/-- The boolean mask `np.logical_and(event_time >= t, event_time <= t + ONE_HOUR)`
used by `__concentration__`, applied to one time value. -/
def inWindow (t u : Int) : Bool :=
  decide (t ≤ u) && decide (u ≤ t + ONE_HOUR)

/-- The rows of a shop's transactions selected by the mask `nextHour`
in `__concentration__`. -/
def windowTxns (transactions : List STxn) (t : Int) : List STxn :=
  transactions.filter (fun r => inWindow t r.time)

/-- The `userId` column of the masked selection (`transactions[nextHour, 1]`). -/
def windowUsers (transactions : List STxn) (t : Int) : List Int :=
  (windowTxns transactions t).map (fun r => r.userId)

/-- `__concentration__(transactions)`: one output row per input row, holding
`orderId`, `userId`, the concentration of the window starting at the row's
`event_time`, and that `event_time`. -/
def concentration (transactions : List STxn) : List ConRec :=
  transactions.map (fun record =>
    { orderId := record.orderId
      userId := record.userId
      con := single_concentration (windowUsers transactions record.time)
      time := record.time })

/-- The `bad_orders` selection in `__get_suspicious_orders__`: the
`(orderId, userId)` columns of the concentration rows whose `event_time`
lies in `[suspicious_time, upper_time]`. -/
def badOrders (cons : List ConRec) (suspicious_time upper_time : Int) :
    List (Int × Int) :=
  (cons.filter (fun c =>
      decide (suspicious_time ≤ c.time) && decide (c.time ≤ upper_time))).map
    (fun c => (c.orderId, c.userId))

/-- `suspicious_orders.add(tuple(order))`: adding to a Python set, modelled on
a duplicate-free list. -/
def addPair (s : List (Int × Int)) (p : Int × Int) : List (Int × Int) :=
  if p ∈ s then s else s ++ [p]

/-- The inner `for order in bad_orders` loop of `__get_suspicious_orders__`. -/
def addPairs (s : List (Int × Int)) (ps : List (Int × Int)) : List (Int × Int) :=
  ps.foldl addPair s

/-- One iteration of the main loop of `__get_suspicious_orders__`: state is
`(suspicious_orders, last_upper_time)`; a row with concentration at least 3
whose time is beyond `last_upper_time` contributes its window's pairs and
advances `last_upper_time`, any other row leaves the state unchanged. -/
def selectStep (cons : List ConRec) (st : List (Int × Int) × Int) (r : ConRec) :
    List (Int × Int) × Int :=
  if 3 ≤ r.con then
    if r.time ≤ st.2 then st
    else (addPairs st.1 (badOrders cons r.time (r.time + ONE_HOUR)),
          r.time + ONE_HOUR)
  else st

/-- `__get_suspicious_orders__(transactions)`: run `selectStep` over all
concentration rows, starting from the empty set and `last_upper_time = 0`. -/
def get_suspicious_orders (transactions : List STxn) : List (Int × Int) :=
  ((concentration transactions).foldl
    (selectStep (concentration transactions)) ([], 0)).1

/-- Comparison of transactions by `event_time`, the key of the constructor's
sort `np.argsort(data[:, 3])`. -/
def timeLE (a b : Txn) : Prop := a.time ≤ b.time

instance : DecidableRel timeLE := fun a b => inferInstanceAs (Decidable (a.time ≤ b.time))

instance : IsTotal Txn timeLE := ⟨fun a b => Int.le_total a.time b.time⟩

instance : IsTrans Txn timeLE := ⟨fun _ _ _ h h2 => le_trans h h2⟩

/-- The constructor's sort of the stored copy by `event_time`. -/
def sortData (data : List Txn) : List Txn :=
  List.insertionSort timeLE data

/-- `__get_shop_transaction__(shopId)`: the rows of the sorted store whose
`shopId` column matches, projected to columns `orderId, userId, event_time`. -/
def get_shop_transaction (data : List Txn) (shopId : Int) : List STxn :=
  (data.filter (fun r => decide (r.shopId = shopId))).map
    (fun r => { orderId := r.orderId, userId := r.userId, time := r.time })

/-- `np.unique` on a one-dimensional integer array: the distinct values in
ascending order. -/
def uniqueSorted (l : List Int) : List Int :=
  List.insertionSort (fun a b => a ≤ b) l.dedup

/-- The `userId` column `suspicious[:, 1]` of a list of suspicious pairs. -/
def userColumn (pairs : List (Int × Int)) : List Int :=
  pairs.map (fun p => p.2)

/-- The first component of `np.unique(..., return_counts=True)`: the distinct
users, ascending. -/
def uniqueUsers (pairs : List (Int × Int)) : List Int :=
  uniqueSorted (userColumn pairs)

/-- The second component of `np.unique(..., return_counts=True)`: the
occurrence count of each distinct user, aligned with `uniqueUsers`. -/
def userCounts (pairs : List (Int × Int)) : List Nat :=
  (uniqueUsers pairs).map (fun u => (userColumn pairs).count u)

/-- `counts.max()` of the per-user counts (`0` only on an empty list, which
the caller rules out). -/
def maxCount (pairs : List (Int × Int)) : Nat :=
  (userCounts pairs).foldl max 0

/-- The per-shop tail of `get_suspicious_shop_users`: `None` when no
suspicious order exists, otherwise `users[counts == maxCount]`. -/
def shopVerdict (pairs : List (Int × Int)) : Option (List Int) :=
  if pairs.length = 0 then none
  else some ((uniqueUsers pairs).filter
    (fun u => (userColumn pairs).count u == maxCount pairs))

/-- `self.__UNIQUE_SHOP_ID = np.unique(transactionData[:, 1])`. -/
def shopIds (data : List Txn) : List Int :=
  uniqueSorted (data.map (fun r => r.shopId))

/-- `get_suspicious_shop_users()`: for every distinct shop id in ascending
order, the verdict computed from that shop's rows of the sorted store,
collected as an association list (the Python dict). -/
def get_suspicious_shop_users (data : List Txn) : List (Int × Option (List Int)) :=
  (shopIds data).map (fun shopId =>
    (shopId, shopVerdict (get_suspicious_orders
      (get_shop_transaction (sortData data) shopId))))

/-- The validation failure of the constructor (`assert transactionData.shape[1] == 4`),
as the spec's typed error. -/
inductive InitError where
  | invalidInputShape
deriving DecidableEq, Repr

/-- Reading one four-column row into a `Txn`. -/
def rowToTxn (r : List Int) : Txn :=
  { orderId := r.getD 0 0, shopId := r.getD 1 0, userId := r.getD 2 0,
    time := r.getD 3 0 }

/-- `Orderbrush.__init__(transactionData)`: reject the input unless every
record carries exactly four fields, otherwise build the sorted store. -/
def initStore (rows : List (List Int)) : Except InitError (List Txn) :=
  if rows.all (fun r => r.length == 4) then
    .ok (sortData (rows.map rowToTxn))
  else
    .error .invalidInputShape

/-! ### Helper lemmas -/

theorem mem_addPair {s : List (Int × Int)} {p a : Int × Int} :
    a ∈ addPair s p ↔ a ∈ s ∨ a = p := by
  unfold addPair
  by_cases hp : p ∈ s
  · simp only [if_pos hp]
    constructor
    · exact Or.inl
    · rintro (h | rfl)
      · exact h
      · exact hp
  · simp [if_neg hp]

theorem mem_addPairs {s ps : List (Int × Int)} {a : Int × Int} :
    a ∈ addPairs s ps ↔ a ∈ s ∨ a ∈ ps := by
  induction ps generalizing s with
  | nil => simp [addPairs]
  | cons q qs ih =>
    show a ∈ addPairs (addPair s q) qs ↔ _
    rw [ih, mem_addPair]
    simp [or_assoc]

theorem lookup_map_eq {α β : Type} [DecidableEq α] (a : α) (l : List α) (f : α → β) :
    List.lookup a (l.map (fun s => (s, f s))) =
      if a ∈ l then some (f a) else none := by
  induction l with
  | nil => simp
  | cons x xs ih =>
    by_cases hax : a = x
    · subst hax
      simp [List.lookup]
    · have hbeq : (a == x) = false := beq_false_of_ne hax
      simp [List.lookup, hbeq, hax, ih]

/-! ### Theorems for the claims -/

/-- Claim C3: every record emitted by `__concentration__` for a trigger time `t`
has concentration equal to the floor of window count over distinct window
buyers, and that concentration is at least 1 because the window always
contains the triggering transaction itself. -/
theorem concentration_floor_and_lower_bound
    (transactions : List STxn) (rec : ConRec)
    (hrec : rec ∈ concentration transactions) :
    rec.con = (windowUsers transactions rec.time).length /
        (windowUsers transactions rec.time).dedup.length ∧
      1 ≤ rec.con := by
  unfold concentration at hrec
  rw [List.mem_map] at hrec
  obtain ⟨record, hmem, hform⟩ := hrec
  have htime : rec.time = record.time := by rw [← hform]
  have hcon : rec.con = single_concentration (windowUsers transactions record.time) := by
    rw [← hform]
  have hself : record ∈ windowTxns transactions record.time := by
    unfold windowTxns
    rw [List.mem_filter]
    refine ⟨hmem, ?_⟩
    unfold inWindow ONE_HOUR
    simp only [Bool.and_eq_true, decide_eq_true_eq]
    omega
  have husers : record.userId ∈ windowUsers transactions record.time :=
    List.mem_map_of_mem (fun r => r.userId) hself
  have hlen : 1 ≤ (windowUsers transactions record.time).length :=
    List.length_pos.mpr (List.ne_nil_of_mem husers)
  have hdlen : 1 ≤ (windowUsers transactions record.time).dedup.length :=
    List.length_pos.mpr (List.ne_nil_of_mem (List.mem_dedup.mpr husers))
  have hdle : (windowUsers transactions record.time).dedup.length ≤
      (windowUsers transactions record.time).length :=
    (List.dedup_sublist _).length_le
  have hval : single_concentration (windowUsers transactions record.time) =
      (windowUsers transactions record.time).length /
        (windowUsers transactions record.time).dedup.length := by
    unfold single_concentration
    rw [if_neg (by omega)]
  constructor
  · rw [hcon, htime, hval]
  · rw [hcon, hval]
    exact (Nat.one_le_div_iff hdlen).mpr hdle

/-- Witness for claim C3 at a one-transaction shop. -/
theorem concentration_floor_and_lower_bound_witness :
    (⟨1, 7, 1, 0⟩ : ConRec).con =
        (windowUsers [⟨1, 7, 0⟩] (⟨1, 7, 1, 0⟩ : ConRec).time).length /
          (windowUsers [⟨1, 7, 0⟩] (⟨1, 7, 1, 0⟩ : ConRec).time).dedup.length ∧
      1 ≤ (⟨1, 7, 1, 0⟩ : ConRec).con :=
  concentration_floor_and_lower_bound [⟨1, 7, 0⟩] ⟨1, 7, 1, 0⟩ (by decide)

/-- Claim C4: the concentration window is inclusive at both ends: a same-shop
transaction at exactly `t + 3600` is selected by the window mask anchored at
`t`, and one at `t + 3601` is not. -/
theorem window_inclusive_both_ends
    (transactions : List STxn) (t : Int) (r : STxn) (hr : r ∈ transactions) :
    (r.time = t + 3600 → r ∈ windowTxns transactions t) ∧
      (r.time = t + 3601 → r ∉ windowTxns transactions t) := by
  constructor
  · intro hrt
    unfold windowTxns
    rw [List.mem_filter]
    refine ⟨hr, ?_⟩
    unfold inWindow ONE_HOUR
    simp only [Bool.and_eq_true, decide_eq_true_eq]
    omega
  · intro hrt hmem
    unfold windowTxns at hmem
    rw [List.mem_filter] at hmem
    have := hmem.2
    unfold inWindow ONE_HOUR at this
    simp only [Bool.and_eq_true, decide_eq_true_eq] at this
    omega

/-- Witness for claim C4 at the boundary times 3600 and 3601. -/
theorem window_inclusive_both_ends_witness :
    (⟨1, 7, 3600⟩ : STxn) ∈ windowTxns [⟨1, 7, 3600⟩, ⟨2, 8, 3601⟩] 0 ∧
      (⟨2, 8, 3601⟩ : STxn) ∉ windowTxns [⟨1, 7, 3600⟩, ⟨2, 8, 3601⟩] 0 :=
  ⟨(window_inclusive_both_ends [⟨1, 7, 3600⟩, ⟨2, 8, 3601⟩] 0 ⟨1, 7, 3600⟩
      (by decide)).1 (by decide),
   (window_inclusive_both_ends [⟨1, 7, 3600⟩, ⟨2, 8, 3601⟩] 0 ⟨2, 8, 3601⟩
      (by decide)).2 (by decide)⟩

/-- Claim C5: construction succeeds exactly when every record carries the four
required fields, and otherwise fails with the typed shape error and produces
no store. -/
theorem init_shape_check (rows : List (List Int)) :
    ((∀ r ∈ rows, r.length = 4) → ∃ t, initStore rows = Except.ok t) ∧
      ((∃ r ∈ rows, r.length ≠ 4) →
        initStore rows = Except.error InitError.invalidInputShape) := by
  constructor
  · intro h
    refine ⟨sortData (rows.map rowToTxn), ?_⟩
    unfold initStore
    rw [if_pos]
    rw [List.all_eq_true]
    intro r hr
    exact beq_iff_eq.mpr (h r hr)
  · rintro ⟨r, hr, hlen⟩
    unfold initStore
    rw [if_neg]
    intro hall
    rw [List.all_eq_true] at hall
    exact hlen (beq_iff_eq.mp (hall r hr))

/-- Witness for claim C5: a well-shaped input is accepted, a three-field
record is rejected. -/
theorem init_shape_check_witness :
    (∃ t, initStore [[1, 5, 7, 0]] = Except.ok t) ∧
      initStore [[1, 5, 7]] = Except.error InitError.invalidInputShape :=
  ⟨(init_shape_check [[1, 5, 7, 0]]).1 (by decide),
   (init_shape_check [[1, 5, 7]]).2 ⟨[1, 5, 7], by decide⟩⟩

/-- Claim C1: for a concentration record with concentration at least 3, the
selection loop of `__get_suspicious_orders__` either skips the trigger
entirely (state unchanged) when its time is at most `last_upper_time`, or
accepts it: `last_upper_time` becomes `suspicious_time + 3600`, previously
collected pairs are kept, and every record of the full per-shop concentration
list with time in `[suspicious_time, suspicious_time + 3600]` contributes its
`(orderId, userId)` pair. -/
theorem select_step_skip_or_accept
    (cons : List ConRec) (st : List (Int × Int) × Int) (r : ConRec)
    (hcon : 3 ≤ r.con) :
    (r.time ≤ st.2 → selectStep cons st r = st) ∧
      (¬ r.time ≤ st.2 →
        (selectStep cons st r).2 = r.time + 3600 ∧
          (∀ p ∈ st.1, p ∈ (selectStep cons st r).1) ∧
          ∀ c ∈ cons, r.time ≤ c.time → c.time ≤ r.time + 3600 →
            (c.orderId, c.userId) ∈ (selectStep cons st r).1) := by
  constructor
  · intro hskip
    unfold selectStep
    rw [if_pos hcon, if_pos hskip]
  · intro hacc
    have hstep : selectStep cons st r =
        (addPairs st.1 (badOrders cons r.time (r.time + ONE_HOUR)),
          r.time + ONE_HOUR) := by
      unfold selectStep
      rw [if_pos hcon, if_neg hacc]
    refine ⟨by rw [hstep]; rfl, ?_, ?_⟩
    · intro p hp
      rw [hstep]
      exact mem_addPairs.mpr (Or.inl hp)
    · intro c hc hlo hhi
      rw [hstep]
      refine mem_addPairs.mpr (Or.inr ?_)
      unfold badOrders
      refine List.mem_map_of_mem (fun c : ConRec => (c.orderId, c.userId)) ?_
      rw [List.mem_filter]
      refine ⟨hc, ?_⟩
      unfold ONE_HOUR
      simp only [Bool.and_eq_true, decide_eq_true_eq]
      exact ⟨hlo, hhi⟩

/-- Witness for claim C1: an accepted trigger collects the window's pair and
advances the upper bound; a second equal-time trigger would then be skipped. -/
theorem select_step_skip_or_accept_witness :
    (selectStep [⟨1, 7, 3, 5⟩] ([], 0) ⟨1, 7, 3, 5⟩).2 = 5 + 3600 ∧
      (1, 7) ∈ (selectStep [⟨1, 7, 3, 5⟩] ([], 0) ⟨1, 7, 3, 5⟩).1 ∧
      selectStep [⟨1, 7, 3, 5⟩] ([(1, 7)], 3605) ⟨1, 7, 3, 5⟩ = ([(1, 7)], 3605) :=
  ⟨((select_step_skip_or_accept [⟨1, 7, 3, 5⟩] ([], 0) ⟨1, 7, 3, 5⟩
      (by decide)).2 (by decide)).1,
   ((select_step_skip_or_accept [⟨1, 7, 3, 5⟩] ([], 0) ⟨1, 7, 3, 5⟩
      (by decide)).2 (by decide)).2.2 ⟨1, 7, 3, 5⟩ (by decide) (by decide) (by decide),
   (select_step_skip_or_accept [⟨1, 7, 3, 5⟩] ([(1, 7)], 3605) ⟨1, 7, 3, 5⟩
      (by decide)).1 (by decide)⟩

/-- Claim C7: on a non-empty suspicious-pair set the aggregation reports
exactly the buyers whose pair count equals the maximal count, so all tied
maximal buyers appear in the verdict. -/
theorem aggregate_reports_all_maximal
    (pairs : List (Int × Int)) (u : Int) (hne : pairs ≠ []) :
    ∃ vs, shopVerdict pairs = some vs ∧
      (u ∈ vs ↔ u ∈ userColumn pairs ∧
        (userColumn pairs).count u = maxCount pairs) := by
  have hlen : pairs.length ≠ 0 := fun h => hne (List.length_eq_zero.mp h)
  refine ⟨(uniqueUsers pairs).filter
    (fun u => (userColumn pairs).count u == maxCount pairs), ?_, ?_⟩
  · unfold shopVerdict
    rw [if_neg hlen]
  · rw [List.mem_filter]
    have hmem : u ∈ uniqueUsers pairs ↔ u ∈ userColumn pairs := by
      unfold uniqueUsers uniqueSorted
      rw [List.mem_insertionSort, List.mem_dedup]
    rw [hmem, beq_iff_eq]

/-- Witness for claim C7: two buyers tied at count one both appear. -/
theorem aggregate_reports_all_maximal_witness :
    ∃ vs, shopVerdict [(1, 7), (2, 8)] = some vs ∧
      (7 ∈ vs ↔ 7 ∈ userColumn [(1, 7), (2, 8)] ∧
        (userColumn [(1, 7), (2, 8)]).count 7 = maxCount [(1, 7), (2, 8)]) :=
  aggregate_reports_all_maximal [(1, 7), (2, 8)] 7 (by decide)

theorem foldl_selectStep_of_low
    (cons : List ConRec) (l : List ConRec) (st : List (Int × Int) × Int)
    (h : ∀ r ∈ l, r.con < 3) :
    l.foldl (selectStep cons) st = st := by
  induction l generalizing st with
  | nil => rfl
  | cons r rs ih =>
    have hr : r.con < 3 := h r (List.mem_cons_self r rs)
    have hstep : selectStep cons st r = st := by
      unfold selectStep
      rw [if_neg (by omega)]
    rw [List.foldl_cons, hstep]
    exact ih st (fun x hx => h x (List.mem_cons_of_mem r hx))

/-- Claim C6: a shop present in the data all of whose concentration records
stay below the threshold 3 triggers nothing: the pipeline yields the `None`
verdict for it. -/
theorem all_low_concentration_absent
    (data : List Txn) (shopId : Int)
    (hshop : shopId ∈ data.map (fun r => r.shopId))
    (hlow : ∀ rec ∈ concentration (get_shop_transaction (sortData data) shopId),
      rec.con < 3) :
    List.lookup shopId (get_suspicious_shop_users data) = some none := by
  unfold get_suspicious_shop_users
  rw [lookup_map_eq]
  have hmem : shopId ∈ shopIds data := by
    unfold shopIds uniqueSorted
    rw [List.mem_insertionSort, List.mem_dedup]
    exact hshop
  rw [if_pos hmem]
  have horders : get_suspicious_orders (get_shop_transaction (sortData data) shopId) = [] := by
    unfold get_suspicious_orders
    rw [foldl_selectStep_of_low _ _ _ hlow]
  rw [horders]
  rfl

/-- Witness for claim C6: a single-transaction shop has concentration exactly
1 and an absent verdict. -/
theorem all_low_concentration_absent_witness :
    List.lookup 5 (get_suspicious_shop_users [⟨1, 5, 7, 0⟩]) = some none :=
  all_low_concentration_absent [⟨1, 5, 7, 0⟩] 5 (by decide) (by decide)

theorem uniqueSorted_perm_eq {l1 l2 : List Int} (h : l1.Perm l2) :
    uniqueSorted l1 = uniqueSorted l2 := by
  unfold uniqueSorted
  exact List.eq_of_perm_of_sorted
    (((List.perm_insertionSort _ _).trans h.dedup).trans
      (List.perm_insertionSort _ _).symm)
    (List.sorted_insertionSort _ _) (List.sorted_insertionSort _ _)

theorem shopVerdict_perm_invariant {p1 p2 : List (Int × Int)} (h : p1.Perm p2) :
    shopVerdict p1 = shopVerdict p2 := by
  have hcol : (userColumn p1).Perm (userColumn p2) :=
    h.map (fun p : Int × Int => p.2)
  have huniq : uniqueUsers p1 = uniqueUsers p2 := uniqueSorted_perm_eq hcol
  have hcount : ∀ u, (userColumn p1).count u = (userColumn p2).count u :=
    fun u => hcol.count_eq u
  have hmax : maxCount p1 = maxCount p2 := by
    unfold maxCount userCounts
    rw [huniq]
    rw [List.map_congr_left (fun u _ => hcount u)]
  unfold shopVerdict
  rw [h.length_eq, huniq, hmax]
  by_cases hl : p2.length = 0
  · rw [if_pos hl, if_pos hl]
  · rw [if_neg hl, if_neg hl]
    rw [List.filter_congr (fun u _ => by rw [hcount u])]

/-- Claim C9: the pipeline is deterministic: a fixed input yields the same
verdict map on every run, and the per-shop aggregation does not depend on the
iteration order of the suspicious-pair set. -/
theorem pipeline_deterministic
    (data : List Txn) (pairs1 pairs2 : List (Int × Int)) :
    get_suspicious_shop_users data = get_suspicious_shop_users data ∧
      (pairs1.Perm pairs2 → shopVerdict pairs1 = shopVerdict pairs2) :=
  ⟨rfl, fun h => shopVerdict_perm_invariant h⟩

/-- Witness for claim C9 on a concrete input and a concrete reordering. -/
theorem pipeline_deterministic_witness :
    get_suspicious_shop_users [⟨1, 5, 7, 0⟩] =
        get_suspicious_shop_users [⟨1, 5, 7, 0⟩] ∧
      shopVerdict [(1, 7), (2, 8)] = shopVerdict [(2, 8), (1, 7)] :=
  ⟨(pipeline_deterministic [⟨1, 5, 7, 0⟩] [] []).1,
   (pipeline_deterministic [⟨1, 5, 7, 0⟩] [(1, 7), (2, 8)] [(2, 8), (1, 7)]).2
     (by decide)⟩

theorem shopVerdict_some_sorted {pairs : List (Int × Int)} {vs : List Int}
    (h : shopVerdict pairs = some vs) :
    vs.Sorted (fun a b => a < b) ∧ vs.Nodup := by
  unfold shopVerdict at h
  by_cases hl : pairs.length = 0
  · rw [if_pos hl] at h
    exact absurd h (by simp)
  · rw [if_neg hl] at h
    have hvs := Option.some.inj h
    have hle : (uniqueUsers pairs).Sorted (fun a b : Int => a ≤ b) := by
      unfold uniqueUsers uniqueSorted
      exact List.sorted_insertionSort _ _
    have hnd : (uniqueUsers pairs).Nodup := by
      unfold uniqueUsers uniqueSorted
      exact (List.perm_insertionSort _ _).nodup_iff.mpr (List.nodup_dedup _)
    have hlt : (uniqueUsers pairs).Sorted (fun a b : Int => a < b) :=
      List.Sorted.lt_of_le hle hnd
    constructor
    · rw [← hvs]
      exact hlt.sublist (List.filter_sublist _)
    · rw [← hvs]
      exact hnd.sublist (List.filter_sublist _)

/-- Claim C10: every non-absent verdict lists its buyers in strictly
ascending order without duplicates. -/
theorem verdict_sorted_nodup
    (data : List Txn) (s : Int) (us : List Int)
    (h : List.lookup s (get_suspicious_shop_users data) = some (some us)) :
    us.Sorted (fun a b => a < b) ∧ us.Nodup := by
  unfold get_suspicious_shop_users at h
  rw [lookup_map_eq] at h
  by_cases hmem : s ∈ shopIds data
  · rw [if_pos hmem] at h
    exact shopVerdict_some_sorted (Option.some.inj h)
  · rw [if_neg hmem] at h
    exact absurd h (by simp)

/-- Witness for claim C10 on a shop with a non-absent verdict. -/
theorem verdict_sorted_nodup_witness :
    ([7] : List Int).Sorted (fun a b => a < b) ∧ ([7] : List Int).Nodup :=
  verdict_sorted_nodup
    [⟨1, 5, 7, 0⟩, ⟨2, 5, 7, 100⟩, ⟨3, 5, 7, 200⟩, ⟨4, 5, 7, 300⟩] 5 [7]
    (by decide)

theorem filter_orderedInsert {α : Type} (r : α → α → Prop) [DecidableRel r]
    [IsTrans α r] (p : α → Bool) (x : α) (m : List α) (hm : List.Sorted r m) :
    (List.orderedInsert r x m).filter p =
      if p x then List.orderedInsert r x (m.filter p) else m.filter p := by
  induction m with
  | nil =>
    by_cases hp : p x <;> simp [hp]
  | cons y ys ih =>
    rw [List.sorted_cons] at hm
    by_cases hxy : r x y
    · rw [List.orderedInsert, if_pos hxy]
      by_cases hp : p x
      · rw [if_pos hp, List.filter_cons_of_pos hp]
        cases hfl : List.filter p (y :: ys) with
        | nil => simp
        | cons z zs =>
          have hz : z ∈ List.filter p (y :: ys) := by
            rw [hfl]
            exact List.mem_cons_self z zs
          have hxz : r x z := by
            rcases List.mem_cons.mp (List.mem_of_mem_filter hz) with h1 | h2
            · rw [h1]
              exact hxy
            · exact Trans.trans hxy (hm.1 z h2)
          rw [List.orderedInsert, if_pos hxz]
      · rw [if_neg hp, List.filter_cons_of_neg hp]
    · rw [List.orderedInsert, if_neg hxy]
      have ihs := ih hm.2
      by_cases hp : p x
      · by_cases hpy : p y
        · rw [if_pos hp, List.filter_cons_of_pos hpy, List.filter_cons_of_pos hpy,
            ihs, if_pos hp, List.orderedInsert, if_neg hxy]
        · rw [if_pos hp, List.filter_cons_of_neg hpy, List.filter_cons_of_neg hpy,
            ihs, if_pos hp]
      · by_cases hpy : p y
        · rw [if_neg hp, List.filter_cons_of_pos hpy, List.filter_cons_of_pos hpy,
            ihs, if_neg hp]
        · rw [if_neg hp, List.filter_cons_of_neg hpy, List.filter_cons_of_neg hpy,
            ihs, if_neg hp]

theorem filter_insertionSort {α : Type} (r : α → α → Prop) [DecidableRel r]
    [IsTotal α r] [IsTrans α r] (p : α → Bool) (l : List α) :
    (List.insertionSort r l).filter p = List.insertionSort r (l.filter p) := by
  induction l with
  | nil => rfl
  | cons x xs ih =>
    rw [List.insertionSort,
      filter_orderedInsert r p x _ (List.sorted_insertionSort r xs)]
    by_cases hp : p x
    · rw [if_pos hp, ih, List.filter_cons_of_pos hp, List.insertionSort]
    · rw [if_neg hp, ih, List.filter_cons_of_neg hp]

theorem gssu_lookup_congr (C D : List Txn) (s : Int)
    (hmem : s ∈ C.map (fun r => r.shopId) ↔ s ∈ D.map (fun r => r.shopId))
    (hfilter : C.filter (fun r => decide (r.shopId = s)) =
      D.filter (fun r => decide (r.shopId = s))) :
    List.lookup s (get_suspicious_shop_users C) =
      List.lookup s (get_suspicious_shop_users D) := by
  unfold get_suspicious_shop_users
  rw [lookup_map_eq, lookup_map_eq]
  have hmem2 : s ∈ shopIds C ↔ s ∈ shopIds D := by
    unfold shopIds uniqueSorted
    rw [List.mem_insertionSort, List.mem_dedup, List.mem_insertionSort,
      List.mem_dedup]
    exact hmem
  have hkey : get_shop_transaction (sortData C) s =
      get_shop_transaction (sortData D) s := by
    unfold get_shop_transaction sortData
    rw [filter_insertionSort timeLE _ C, filter_insertionSort timeLE _ D, hfilter]
  by_cases hm : s ∈ shopIds D
  · rw [if_pos hm, if_pos (hmem2.mpr hm), hkey]
  · rw [if_neg hm, if_neg (fun h => hm (hmem2.mp h))]

/-- Claim C8: shop independence: when every transaction of `A` belongs to shop
`a`, every transaction of `B` to a different shop `b`, the single pipeline run
on `A ++ B` assigns shop `a` exactly the verdict of the run on `A` alone and
shop `b` exactly the verdict of the run on `B` alone. -/
theorem shop_independence (A B : List Txn) (a b : Int)
    (hA : ∀ x ∈ A, x.shopId = a) (hB : ∀ x ∈ B, x.shopId = b) (hab : a ≠ b) :
    List.lookup a (get_suspicious_shop_users (A ++ B)) =
        List.lookup a (get_suspicious_shop_users A) ∧
      List.lookup b (get_suspicious_shop_users (A ++ B)) =
        List.lookup b (get_suspicious_shop_users B) := by
  have hBa : B.filter (fun r => decide (r.shopId = a)) = [] :=
    List.filter_eq_nil_iff.mpr (fun x hx => by simp [hB x hx, hab.symm])
  have hAb : A.filter (fun r => decide (r.shopId = b)) = [] :=
    List.filter_eq_nil_iff.mpr (fun x hx => by simp [hA x hx, hab])
  have hamem : a ∈ (A ++ B).map (fun r => r.shopId) ↔
      a ∈ A.map (fun r => r.shopId) := by
    rw [List.map_append, List.mem_append]
    constructor
    · rintro (h | h)
      · exact h
      · rw [List.mem_map] at h
        obtain ⟨x, hx, hxa⟩ := h
        rw [hB x hx] at hxa
        exact absurd hxa (Ne.symm hab)
    · exact Or.inl
  have hbmem : b ∈ (A ++ B).map (fun r => r.shopId) ↔
      b ∈ B.map (fun r => r.shopId) := by
    rw [List.map_append, List.mem_append]
    constructor
    · rintro (h | h)
      · rw [List.mem_map] at h
        obtain ⟨x, hx, hxb⟩ := h
        rw [hA x hx] at hxb
        exact absurd hxb hab
      · exact h
    · exact Or.inr
  constructor
  · exact gssu_lookup_congr (A ++ B) A a hamem
      (by rw [List.filter_append, hBa, List.append_nil])
  · exact gssu_lookup_congr (A ++ B) B b hbmem
      (by rw [List.filter_append, hAb, List.nil_append])

/-- Witness for claim C8 on two concrete one-transaction shops, covering both
sides of the concatenated run. -/
theorem shop_independence_witness :
    (List.lookup 1 (get_suspicious_shop_users ([⟨1, 1, 7, 0⟩] ++ [⟨2, 2, 8, 0⟩])) =
        List.lookup 1 (get_suspicious_shop_users [⟨1, 1, 7, 0⟩])) ∧
      List.lookup 2 (get_suspicious_shop_users ([⟨1, 1, 7, 0⟩] ++ [⟨2, 2, 8, 0⟩])) =
        List.lookup 2 (get_suspicious_shop_users [⟨2, 2, 8, 0⟩]) :=
  shop_independence [⟨1, 1, 7, 0⟩] [⟨2, 2, 8, 0⟩] 1 2 (by decide) (by decide)
    (by decide)

end OrderbrushModel
